import Mathlib

set_option maxRecDepth 8000

/-
Shallow embedding of the Lipsync repository's speech-timing and
pause-synchronization engine, and proofs of the specification claims.

Sources embedded:
  src/BlendShapeMapper.js  — BlendShapeMapper (protected-shape predicate and
                             phoneme→channel resolution) and AudioAnalyzer
                             (pause detection over a sample buffer).
  src/LipSyncController.js — LipSyncController (timeline scheduling, pose
                             blending, live pause synchronization, tick
                             interpolation, stop/reset).

Conventions: JS numbers are modelled as ℚ (real arithmetic; floating-point
rounding is not modelled).  JS `Map` objects are modelled as insertion-ordered
association lists `List (String × ℚ)` with JS `Map.get`/`Map.set`/`Map.delete`
semantics.  JS objects used as string-keyed tables are modelled as association
lists looked up with `objGet`.  `setTimeout` entries are modelled as pending
timer records held by the host environment; the controller itself never stores
or clears timeout handles, exactly as in the source.
-/

namespace LipSync

/-! ### BlendShapeMapper.js : protected emotion shapes -/

/-- The `protectedEmotionShapes` array from the `BlendShapeMapper` constructor
(src/BlendShapeMapper.js lines 7-21), verbatim, including the duplicated
`BlendShape_EyeR.EyeLookOut_R` entry. -/
def protectedEmotionShapes : List String :=
  ["BlendShapes_Main.happy_M", "BlendShapes_EyeLashes.happy_M", "BlendShapes_Eyebrows.happy_M",
   "BlendShapes_Beard.happy_M", "BlendShapes_Moustache.happy_M", "BlendShapes_Mouth.happy_M",
   "BlendShapes_Main.sad_M", "BlendShapes_EyeLashes.sad_M", "BlendShapes_Eyebrows.sad_M",
   "BlendShapes_Beard.sad_M", "BlendShapes_Moustache.sad_M",
   "BlendShapes_Main.angry_M", "BlendShapes_EyeLashes.angry_M", "BlendShapes_Eyebrows.angry_M",
   "BlendShapes_Beard.angry_M", "BlendShapes_Moustache.angry_M",
   "BlendShapes_Main.surprise_M", "BlendShapes_EyeLashes.surprise_M", "BlendShapes_Eyebrows.surprise_M",
   "BlendShapes_Beard.surprise_M", "BlendShapes_Moustache.surprise_M", "BlendShapes_Mouth.surprise_M",
   "BlendShapes_Main.fear_M", "BlendShapes_EyeLashes.fear_M", "BlendShapes_Eyebrows.fear_M",
   "BlendShapes_Beard.fear_M", "BlendShapes_Moustache.fear_M", "BlendShapes_Mouth.fear_M",
   "BlendShape_Main.Happy", "BlendShape_EyeLashes.Happy", "BlendShape_Eyebrows.Happy", "BlendShape_Beard.Happy",
   "BlendShape_Main.Sad", "BlendShape_EyeLashes.Sad", "BlendShape_Eyebrows.Sad", "BlendShape_Beard.Sad",
   "BlendShape_Main.Angry", "BlendShape_EyeLashes.Angry", "BlendShape_Eyebrows.Angry", "BlendShape_Beard.Angry",
   "BlendShape_Main.Surprise", "BlendShape_EyeLashes.Surprise", "BlendShape_Eyebrows.Surprise", "BlendShape_Beard.Surprise",
   "BlendShape_Main.Fear", "BlendShape_EyeLashes.Fear", "BlendShape_Eyebrows.Fear", "BlendShape_Beard.Fear", "BlendShape_Mouth.Fear",
   "BlendShape_EyeR.EyeLookOut_R", "BlendShape_EyeR.EyeLookOut_R", "BlendShape_EyeL.EyeLookIn_L", "BlendShape_EyeL.EyeLookOut_L"]

/-- JS `String.prototype.toLowerCase` restricted to the ASCII names used by the
repository (Lean's `String.toLower` is the same per-character map but is
defined by well-founded recursion, so we map over the character list to keep
the definition kernel-reducible). -/
def lowerStr (s : String) : String := ⟨s.data.map Char.toLower⟩

/-- JS `String.prototype.includes sub` on character lists: `t` occurs as a
contiguous substring. Mirrors a left-to-right scan as an engine would do it. -/
def includesList (t : List Char) : List Char → Bool
  | [] => decide (t = [])
  | c :: s => List.isPrefixOf t (c :: s) || includesList t s

/-- JS `s.includes(sub)`: `sub` occurs contiguously in `s`. -/
def stringIncludes (s sub : String) : Bool := includesList sub.data s.data

/-- `BlendShapeMapper.isProtectedEmotionShape(shapeName)`
(src/BlendShapeMapper.js lines 153-160).  `none` models a JS `null`/`undefined`
argument; the JS falsy test `!shapeName` also catches the empty string. -/
def isProtectedEmotionShape : Option String → Bool
  | none => false
  | some s =>
    if s = "" then false
    else protectedEmotionShapes.any (fun p => stringIncludes (lowerStr s) (lowerStr p))

/-- The protected predicate as invoked by the controller, which always passes a
string channel name. -/
def isProtectedName (s : String) : Bool := isProtectedEmotionShape (some s)

/-! ### BlendShapeMapper.js : phoneme → channel resolution tables -/

/-- Lookup in a JS object used as a string-keyed table (`obj[key]`, giving
`undefined` when absent). -/
def objGet {α : Type} (table : List (String × α)) (k : String) : Option α :=
  (table.find? (fun e => e.1 == k)).map (fun e => e.2)

/-- The `standardPhonemes` table (src/BlendShapeMapper.js lines 26-42). -/
def standardPhonemes : List (String × List String) :=
  [("AAA", ["aaa_M", "AHH", "Ahh"]),
   ("EH", ["eh_M", "EE"]),
   ("AHH", ["ahh_M", "AHH", "Ahh"]),
   ("OHH", ["ohh_M", "OW", "OU"]),
   ("UUU", ["uuu_M", "OU"]),
   ("IEE", ["iee_M", "EE"]),
   ("RRR", ["rrr_M", "R"]),
   ("WWW", ["www_M", "W"]),
   ("SSS", ["sss_M"]),
   ("FFF", ["fff_M", "FV"]),
   ("TTH", ["tth_M", "TH", "Th"]),
   ("MBP", ["mbp_M", "MBP"]),
   ("TLDN", ["TLDN"])]

/-- The `prefixMappings` table (src/BlendShapeMapper.js lines 45-50). -/
def prefixMappings : List (String × List String) :=
  [("head", ["BlendShapes_Main.", "BlendShape_Main."]),
   ("mouth", ["BlendShapes_Mouth.", "BlendShape_Mouth."]),
   ("beard", ["BlendShapes_Beard.", "BlendShape_Beard.", "BlendShapes_Beards."]),
   ("moustache", ["BlendShapes_Moustache.", "BlendShape_Moustache."])]

/-- The `syncedMovements` table (src/BlendShapeMapper.js lines 53-145). -/
def syncedMovements : List (String × List (String × List String)) :=
  [("AAA", [("mouth", ["aaa_M", "AHH", "Ahh"]), ("head", ["aaa_M", "AHH", "Ahh"]),
            ("beard", ["aaa_M", "AHH", "Ahh"]), ("moustache", ["aaa_M", "AHH", "Ahh"])]),
   ("EH", [("mouth", ["eh_M", "EE"]), ("head", ["eh_M", "EE"]),
           ("beard", ["eh_M", "EE"]), ("moustache", ["eh_M", "EE"])]),
   ("AHH", [("mouth", ["ahh_M", "AHH", "Ahh"]), ("head", ["ahh_M", "AHH", "Ahh"]),
            ("beard", ["ahh_M", "AHH", "Ahh"]), ("moustache", ["ahh_M", "AHH", "Ahh"])]),
   ("OHH", [("mouth", ["ohh_M", "OU"]), ("head", ["ohh_M", "OU"]),
            ("beard", ["ohh_M", "OU"]), ("moustache", ["ohh_M", "OU"])]),
   ("UUU", [("mouth", ["uuu_M", "OW"]), ("head", ["uuu_M", "OW"]),
            ("beard", ["uuu_M", "OW"]), ("moustache", ["uuu_M", "OW"])]),
   ("IEE", [("mouth", ["iee_M", "EE"]), ("head", ["iee_M", "EE"]),
            ("beard", ["iee_M", "EE"]), ("moustache", ["iee_M", "EE"])]),
   ("RRR", [("mouth", ["rrr_M", "R"]), ("head", ["rrr_M", "R"]),
            ("beard", ["rrr_M", "R"]), ("moustache", ["rrr_M", "R"])]),
   ("WWW", [("mouth", ["www_M", "W"]), ("head", ["www_M", "W"]),
            ("beard", ["www_M", "W"]), ("moustache", ["www_M", "W"])]),
   ("SSS", [("mouth", ["sss_M", "FV"]), ("head", ["sss_M", "FV"]),
            ("beard", ["sss_M", "FV"]), ("moustache", ["sss_M", "FV"])]),
   ("FFF", [("mouth", ["fff_M", "FV"]), ("head", ["fff_M", "FV"]),
            ("beard", ["fff_M", "FV"]), ("moustache", ["fff_M", "FV"])]),
   ("TTH", [("mouth", ["tth_M", "TH", "Th"]), ("head", ["tth_M", "TH", "Th"]),
            ("beard", ["tth_M", "TH", "Th"]), ("moustache", ["tth_M", "TH", "Th"])]),
   ("MBP", [("mouth", ["mbp_M", "MBP"]), ("head", ["mbp_M", "MBP"]),
            ("beard", ["mbp_M", "MBP"]), ("moustache", ["mbp_M", "MBP"])]),
   ("TLDN", [("mouth", ["TLDN"]), ("head", ["TLDN"]),
             ("beard", ["TLDN"]), ("moustache", ["TLDN"])])]

/-- `BlendShapeMapper.mapPhonemeToBlendShapes(availableBlendShapes,
standardPhoneme, modelPart)` (src/BlendShapeMapper.js lines 169-205).  Returns
the matched channel names with their base weight 0.7, in push order. -/
def mapPhonemeToBlendShapes (availableBlendShapes : List String)
    (standardPhoneme modelPart : String) : List (String × ℚ) :=
  let phonemeVariants := (objGet standardPhonemes standardPhoneme).getD []
  let prefixes := (objGet prefixMappings modelPart).getD []
  let syncedShapes := ((objGet syncedMovements standardPhoneme).bind
    (fun tbl => objGet tbl modelPart)).getD []
  let availableNonEmotionShapes := availableBlendShapes.filter
    (fun shape => ! isProtectedName shape)
  prefixes.foldl (fun ms pre =>
    let ms := phonemeVariants.foldl (fun acc variant =>
      let fullName := pre ++ variant
      if availableNonEmotionShapes.contains fullName then acc ++ [(fullName, 7/10)]
      else acc) ms
    syncedShapes.foldl (fun acc syncedShape =>
      let fullName := pre ++ syncedShape
      if availableNonEmotionShapes.contains fullName && ! acc.any (fun m => m.1 == fullName)
      then acc ++ [(fullName, 7/10)]
      else acc) ms) []

/-! ### AudioAnalyzer (src/BlendShapeMapper.js, second module) -/

/-- A detected pause, as pushed by `detectPauses`: `{start, end, duration,
type}`.  The JS field `end` is a Lean keyword and is rendered `endTime`;
`start`/`endTime` are in seconds, `duration` in milliseconds, `type` one of
the three `PAUSE_*` strings. -/
structure PauseInterval where
  start : ℚ
  endTime : ℚ
  duration : ℚ
  type : String
deriving DecidableEq, Repr

/-- The `config` object of `AudioAnalyzer` (silence threshold 0-1, durations
and classification thresholds in milliseconds). -/
structure AnalyzerConfig where
  silenceThreshold : ℚ
  minPauseDuration : ℚ
  shortPauseThreshold : ℚ
  mediumPauseThreshold : ℚ
deriving DecidableEq, Repr

/-- The constructor defaults of `AudioAnalyzer.config`
(src/BlendShapeMapper.js lines 279-289). -/
def defaultAnalyzerConfig : AnalyzerConfig :=
  { silenceThreshold := 15/1000
    minPauseDuration := 150
    shortPauseThreshold := 250
    mediumPauseThreshold := 500 }

/-- `const windowSize = Math.floor(sampleRate * 0.01)` (line 390): the
analysis window length in samples; floor of `sampleRate / 100` for an integer
sample rate. -/
def windowSize (sampleRate : ℕ) : ℕ := sampleRate / 100

/-- Fuel-indexed chunking of the sample list: the loop
`for (i = 0; i < n; i += windowSize)` reads `channelData[i .. min(i+ws, n))`
per iteration.  Fuel is the list length; with `1 ≤ ws` it never runs out. -/
def windowsAux (ws : ℕ) : ℕ → List ℚ → List (List ℚ)
  | 0, _ => []
  | _ + 1, [] => []
  | fuel + 1, x :: xs => (x :: xs).take ws :: windowsAux ws fuel ((x :: xs).drop ws)

/-- The analysis windows of a sample buffer. -/
def windows (ws : ℕ) (samples : List ℚ) : List (List ℚ) :=
  windowsAux ws samples.length samples

/-- The per-window silence test of `detectPauses` (lines 394-403):
`rms < silenceThreshold` where `rms = sqrt(sumSquares / windowLen)`.  Squaring
both sides of the (nonnegative) comparison keeps the definition in ℚ and
kernel-computable; `C4_amended` proves it equivalent to the literal
`Real.sqrt` comparison. -/
def isSilentWindow (silenceThreshold : ℚ) (w : List ℚ) : Bool :=
  decide ((w.map (fun x => x * x)).sum < silenceThreshold ^ 2 * w.length)

/-- The silence flag of each analysis window of a buffer. -/
def silenceFlags (cfg : AnalyzerConfig) (sampleRate : ℕ) (samples : List ℚ) : List Bool :=
  (windows (windowSize sampleRate) samples).map (isSilentWindow cfg.silenceThreshold)

/-- Pause classification by duration (lines 422-429 and 452-460):
`< shortPauseThreshold → PAUSE_SHORT`, `< mediumPauseThreshold → PAUSE_MED`,
else `PAUSE_LONG`. -/
def classifyPause (cfg : AnalyzerConfig) (pauseDuration : ℚ) : String :=
  if pauseDuration < cfg.shortPauseThreshold then "PAUSE_SHORT"
  else if pauseDuration < cfg.mediumPauseThreshold then "PAUSE_MED"
  else "PAUSE_LONG"

/-- Closing a silence candidate `[pauseStart, timeSeconds]`: push it as a
`PauseInterval` only if its duration (ms) reaches `minPauseDuration`
(lines 417-441 and 448-472). -/
def recordPause (cfg : AnalyzerConfig) (pauseStart timeSeconds : ℚ)
    (pauses : List PauseInterval) : List PauseInterval :=
  let pauseDuration := (timeSeconds - pauseStart) * 1000
  if cfg.minPauseDuration ≤ pauseDuration then
    pauses ++ [{ start := pauseStart, endTime := timeSeconds,
                 duration := pauseDuration, type := classifyPause cfg pauseDuration }]
  else pauses

/-- The mutable loop state of `detectPauses`: `inPause`, `pauseStart` and the
`pauses` accumulator. -/
structure DetectState where
  inPause : Bool
  pauseStart : ℚ
  pauses : List PauseInterval
deriving DecidableEq, Repr

/-- One window step of the `detectPauses` loop body (lines 406-442), given the
window's start time `timeSeconds` and its silence flag. -/
def stepWindow (cfg : AnalyzerConfig) (st : DetectState) (timeSeconds : ℚ)
    (isSilent : Bool) : DetectState :=
  if isSilent && ! st.inPause then
    { st with inPause := true, pauseStart := timeSeconds }
  else if ! isSilent && st.inPause then
    { st with inPause := false,
              pauses := recordPause cfg st.pauseStart timeSeconds st.pauses }
  else st

/-- The `detectPauses` loop over the window silence flags, with window index
`k` mapped to its start time by `time`. -/
def detectLoop (cfg : AnalyzerConfig) (time : ℕ → ℚ) : ℕ → DetectState → List Bool → DetectState
  | _, st, [] => st
  | k, st, b :: bs => detectLoop cfg time (k + 1) (stepWindow cfg st (time k) b) bs

/-- The trailing check of `detectPauses` (lines 446-473): if the buffer ends
while still in a pause, close the candidate at buffer end time `endT`. -/
def finishDetect (cfg : AnalyzerConfig) (endT : ℚ) (st : DetectState) : List PauseInterval :=
  if st.inPause then recordPause cfg st.pauseStart endT st.pauses else st.pauses

/-- `detectPauses` on an abstract silence-flag stream: windows are indexed by
`k` with start time `time k`, and the buffer ends at time `endT`. -/
def detectPausesFlags (cfg : AnalyzerConfig) (time : ℕ → ℚ) (endT : ℚ)
    (flags : List Bool) : List PauseInterval :=
  finishDetect cfg endT (detectLoop cfg time 0 ⟨false, 0, []⟩ flags)

/-- The start time in seconds of analysis window `k`: the loop variable `i`
equals `k * windowSize` and `timeSeconds = i / sampleRate` (line 404). -/
def windowTime (sampleRate : ℕ) (k : ℕ) : ℚ :=
  ((k * windowSize sampleRate : ℕ) : ℚ) / (sampleRate : ℚ)

/-- The buffer end time `channelData.length / sampleRate` (line 447). -/
def bufferEndTime (sampleRate : ℕ) (samples : List ℚ) : ℚ :=
  (samples.length : ℚ) / (sampleRate : ℚ)

/-- `AudioAnalyzer.detectPauses(buffer)` (src/BlendShapeMapper.js lines
379-476): window the buffer, test each window for silence, and run the
two-state pause machine.  Window `k` starts at sample index `k * windowSize`,
hence at time `k * windowSize / sampleRate`; buffer end time is
`length / sampleRate`. -/
def detectPauses (cfg : AnalyzerConfig) (sampleRate : ℕ) (samples : List ℚ) : List PauseInterval :=
  detectPausesFlags cfg (windowTime sampleRate) (bufferEndTime sampleRate samples)
    (silenceFlags cfg sampleRate samples)

/-- Modelled from the spec: the spec's stated window length
`round(sampleRate * 0.01)` (spec §4.1), for comparison against the source's
`windowSize`; `(n + 50) / 100` in ℕ is exactly `round(n / 100)` with ties
rounded up, as JS `Math.round` does. -/
def specWindowSize (sampleRate : ℕ) : ℕ := (sampleRate + 50) / 100

/-- `AudioAnalyzer.getPauseAtTime(time)` (lines 483-490): first recorded
interval containing `time` inclusively, else `null`. -/
def getPauseAtTime (pauses : List PauseInterval) (time : ℚ) : Option PauseInterval :=
  pauses.find? (fun pause => decide (pause.start ≤ time) && decide (time ≤ pause.endTime))

/-! ### Reference formulation of silent runs (for claim C3)

The maximal runs of consecutive silent windows, extracted directly from the
flag stream: a run is `(s, some k)` when it spans window indices `[s, k)` with
window `k` the first loud window after it, and `(s, none)` when it reaches the
end of the buffer. -/

/-- Maximal silent runs of a flag stream, scanning from window index `k` with
`o` the start index of the currently open run, if any. -/
def silentRunsAux : ℕ → Option ℕ → List Bool → List (ℕ × Option ℕ)
  | _, none, [] => []
  | _, some s, [] => [(s, none)]
  | k, none, b :: bs => if b then silentRunsAux (k + 1) (some k) bs else silentRunsAux (k + 1) none bs
  | k, some s, b :: bs =>
    if b then silentRunsAux (k + 1) (some s) bs
    else (s, some k) :: silentRunsAux (k + 1) none bs

/-- Maximal silent runs of a flag stream. -/
def silentRuns (flags : List Bool) : List (ℕ × Option ℕ) := silentRunsAux 0 none flags

/-- The `PauseInterval` a silent run would be recorded as: it starts at its
first window's start time and ends at the first loud window's start time, or
at buffer end time `endT` for a trailing run. -/
def runToInterval (cfg : AnalyzerConfig) (time : ℕ → ℚ) (endT : ℚ)
    (r : ℕ × Option ℕ) : PauseInterval :=
  let s := time r.1
  let e := match r.2 with
    | some k => time k
    | none => endT
  { start := s, endTime := e, duration := (e - s) * 1000,
    type := classifyPause cfg ((e - s) * 1000) }

/-! ### LipSyncController.js : blend-shape maps and controls -/

/-- An entry of `this.blendShapeControls`: a named channel control.  `hasMesh`
models the JS guard `control.mesh && typeof control.index === 'number'` used
before touching `morphTargetInfluences`. -/
structure BSControl where
  name : String
  hasMesh : Bool
deriving DecidableEq, Repr

/-- JS `Map.get`: the value of the (unique, in a real `Map`) entry with the
given key. -/
def mapGet : List (String × ℚ) → String → Option ℚ
  | [], _ => none
  | p :: m, k => if p.1 == k then some p.2 else mapGet m k

/-- JS `Map.set`: replace the (unique, in a real `Map`) entry in place when
the key is present, otherwise append, preserving insertion order. -/
def mapSet : List (String × ℚ) → String → ℚ → List (String × ℚ)
  | [], k, v => [(k, v)]
  | p :: m, k, v => if p.1 == k then (k, v) :: m else p :: mapSet m k v

/-- JS `Map.delete`: remove the entry with the given key. -/
def mapDelete (m : List (String × ℚ)) (k : String) : List (String × ℚ) :=
  m.filter (fun p => ! (p.1 == k))

/-- The pause-symbol test used throughout the controller:
`['PAUSE_SHORT', 'PAUSE_MED', 'PAUSE_LONG'].includes(phoneme)`. -/
def isPausePhonemeB (phoneme : String) : Bool :=
  phoneme == "PAUSE_SHORT" || phoneme == "PAUSE_MED" || phoneme == "PAUSE_LONG"

/-- The jaw-control name list of the pause branch of `applyPhoneme`
(src/LipSyncController.js lines 500-513). -/
def pauseJawNames : List String :=
  ["BlendShapes_Main.mouth_open_M", "BlendShape_Main.MouthOpen",
   "BlendShapes_Mouth.mouth_open_M", "BlendShape_Mouth.MouthOpen",
   "BlendShapes_Beard.mouth_open_M", "BlendShape_Beard.MouthOpen",
   "BlendShapes_Moustache.mouth_open_M", "BlendShape_Moustache.MouthOpen"]

/-- The jaw-control name list of the vowel branches of `applyPhoneme` (lines
556-568) and `applyAnticipatedPhoneme` (lines 661-673); note it differs from
`pauseJawNames` (`Teeth` instead of `Mouth` rows). -/
def vowelJawNames : List String :=
  ["BlendShapes_Mouth.mouth_open_M", "BlendShape_Main.MouthOpen",
   "BlendShapes_Teeth.mouth_open_M", "BlendShape_Teeth.MouthOpen",
   "BlendShapes_Beard.mouth_open_M", "BlendShape_Beard.MouthOpen",
   "BlendShapes_Moustache.mouth_open_M", "BlendShape_Moustache.MouthOpen"]

/-- The vowel list of the jaw-movement branches (lines 555 and 657-658). -/
def vowelPhonemes : List String := ["AAA", "EH", "IEE", "OHH", "UUU"]

/-- JS `this.blendShapeControls[name]` — lookup of a control by name. -/
def controlLookup (cs : List BSControl) (name : String) : Option BSControl :=
  cs.find? (fun c => c.name == name)

/-- The jaw-control resolution shared by the jaw branches: look each name up
in `blendShapeControls` and keep controls that exist and are not protected
(`.filter(control => control && !isProtectedEmotionShape(control.name))`). -/
def jawControls (cs : List BSControl) (names : List String) : List BSControl :=
  (names.filterMap (fun n => controlLookup cs n)).filter
    (fun control => ! isProtectedName control.name)

/-- Reset of every non-protected control's target to 0, as done by the pause
branch of `applyPhoneme` (lines 482-486), the reset step of its regular branch
(lines 538-542) and `applyPausePhoneme` (lines 868-872). -/
def resetTargetsToZero (cs : List BSControl) (target : List (String × ℚ)) : List (String × ℚ) :=
  cs.foldl (fun m c =>
    if ! isProtectedName c.name then mapSet m c.name 0 else m) target

/-- The phoneme→channel resolution for the four model parts, as built by
`applyPhoneme` (lines 530-535) and `applyAnticipatedPhoneme` (lines 613-625):
the concatenation respects the object-literal iteration order head, mouth,
beard, moustache. -/
def mappedShapesAll (available : List String) (phoneme : String) : List (String × ℚ) :=
  mapPhonemeToBlendShapes available phoneme "head"
    ++ mapPhonemeToBlendShapes available phoneme "mouth"
    ++ mapPhonemeToBlendShapes available phoneme "beard"
    ++ mapPhonemeToBlendShapes available phoneme "moustache"

/-- The mapped-weight application of `applyPhoneme` (lines 545-552): write
each resolved weight whose control exists and is not protected. -/
def applyMappedWeights (cs : List BSControl) (target mapped : List (String × ℚ)) :
    List (String × ℚ) :=
  mapped.foldl (fun m nw =>
    if (controlLookup cs nw.1).isSome && ! isProtectedName nw.1
    then mapSet m nw.1 nw.2 else m) target

/-- Writing a fixed weight to each resolved jaw control (`jawControls.forEach`
in all three jaw branches). -/
def setJaw (cs : List BSControl) (target : List (String × ℚ)) (names : List String)
    (v : ℚ) : List (String × ℚ) :=
  (jawControls cs names).foldl (fun m control => mapSet m control.name v) target

/-- The fade-toward-neutral loop of the anticipate-into-pause branch
(lines 590-596): scale every non-protected control's target weight (absent
read as 0) by `(1 - blendFactor)`. -/
def fadeTargets (cs : List BSControl) (target : List (String × ℚ))
    (blendFactor : ℚ) : List (String × ℚ) :=
  cs.foldl (fun m c =>
    if ! isProtectedName c.name then
      mapSet m c.name (((mapGet m c.name).getD 0) * (1 - blendFactor))
    else m) target

/-- The `blendedShapes` map of the regular anticipation branch (lines
628-649): current shapes at weight `w * (1 - factor)`, then next shapes added
at `w * factor` on top. -/
def anticipateBlended (cs : List BSControl)
    (currentMapped nextMapped : List (String × ℚ)) (blendFactor : ℚ) :
    List (String × ℚ) :=
  let blendedShapes : List (String × ℚ) := currentMapped.foldl (fun b nw =>
    if (controlLookup cs nw.1).isSome && ! isProtectedName nw.1
    then mapSet b nw.1 (nw.2 * (1 - blendFactor)) else b) []
  nextMapped.foldl (fun b nw =>
    if (controlLookup cs nw.1).isSome && ! isProtectedName nw.1
    then mapSet b nw.1 (((mapGet b nw.1).getD 0) + nw.2 * blendFactor) else b)
    blendedShapes

/-- The unguarded write-back of the blended map
(`blendedShapes.forEach((weight, name) => targetBlendShapes.set(name,
weight))`, lines 652-654). -/
def writeAllWeights (target blended : List (String × ℚ)) : List (String × ℚ) :=
  blended.foldl (fun m nw => mapSet m nw.1 nw.2) target

/-- `LipSyncController.applyPhoneme(phoneme)` (src/LipSyncController.js lines
476-577), acting on the `targetBlendShapes` map.  The pause branch resets all
non-protected targets to 0 and then writes `jawOpenValue` (0 for each pause
type) to the existing non-protected pause jaw controls; the regular branch
resets, writes the resolved weights for all four parts, and forces jaw 0.5,
for vowels. -/
def applyPhoneme (cs : List BSControl) (target : List (String × ℚ))
    (phoneme : String) : List (String × ℚ) :=
  if isPausePhonemeB phoneme then
    let target := resetTargetsToZero cs target
    let jawOpenValue : ℚ :=
      if phoneme == "PAUSE_SHORT" then 0
      else if phoneme == "PAUSE_MED" then 0
      else if phoneme == "PAUSE_LONG" then 0
      else 0
    setJaw cs target pauseJawNames jawOpenValue
  else
    let availableBlendShapes := (cs.map (fun c => c.name)).filter
      (fun name => ! isProtectedName name)
    let mapped := mappedShapesAll availableBlendShapes phoneme
    let target := resetTargetsToZero cs target
    let target := applyMappedWeights cs target mapped
    if vowelPhonemes.contains phoneme then setJaw cs target vowelJawNames (1/2)
    else target

/-- `LipSyncController.applyAnticipatedPhoneme(currentPhoneme, nextPhoneme,
blendFactor)` (src/LipSyncController.js lines 579-686), acting on the
`targetBlendShapes` map.  `none` models a JS `null` next phoneme. -/
def applyAnticipatedPhoneme (cs : List BSControl) (target : List (String × ℚ))
    (currentPhoneme : String) (nextPhoneme : Option String) (blendFactor : ℚ) :
    List (String × ℚ) :=
  match nextPhoneme with
  | none => target
  | some next =>
    if isPausePhonemeB next then fadeTargets cs target blendFactor
    else if isPausePhonemeB currentPhoneme then target
    else
      let availableBlendShapes := (cs.map (fun c => c.name)).filter
        (fun name => ! isProtectedName name)
      let currentMapped := mappedShapesAll availableBlendShapes currentPhoneme
      let nextMapped := mappedShapesAll availableBlendShapes next
      let blendedShapes := anticipateBlended cs currentMapped nextMapped blendFactor
      let target := writeAllWeights target blendedShapes
      let isCurrentVowel := vowelPhonemes.contains currentPhoneme
      let isNextVowel := vowelPhonemes.contains next
      if isCurrentVowel || isNextVowel then
        let jawWeight : ℚ := if isCurrentVowel then (1/2) * (1 - blendFactor) else 0
        let nextJawWeight : ℚ := if isNextVowel then (1/2) * blendFactor else 0
        let blendedJawWeight := jawWeight + nextJawWeight
        setJaw cs target vowelJawNames blendedJawWeight
      else target

/-- `LipSyncController.applyPausePhoneme(pauseType)` (lines 858-873): ignore
unrecognized types, otherwise reset every non-protected target to 0. -/
def applyPausePhoneme (cs : List BSControl) (target : List (String × ℚ))
    (pauseType : String) : List (String × ℚ) :=
  if ! isPausePhonemeB pauseType then target
  else resetTargetsToZero cs target

/-- `LipSyncController.interpolateBlendShapes(delta)` (lines 688-703): for
each target entry, move the current value toward the target by factor
`t = min(1, delta / (transitionDuration / 1000))` and push the new value to
the channel sink.  Returns the updated `currentBlendShapes` map and the list
of `(channel, weight)` sink writes in order. -/
def interpolateBlendShapes (cs : List BSControl) (transitionDuration delta : ℚ)
    (current target : List (String × ℚ)) : List (String × ℚ) × List (String × ℚ) :=
  target.foldl (fun acc nw =>
    let currentValue := ((mapGet acc.1 nw.1).getD 0)
    match controlLookup cs nw.1 with
    | some control =>
      if control.hasMesh && ! isProtectedName nw.1 then
        let t := min 1 (delta / (transitionDuration / 1000))
        let newValue := currentValue + (nw.2 - currentValue) * t
        (mapSet acc.1 nw.1 newValue, acc.2 ++ [(nw.1, newValue)])
      else acc
    | none => acc) (current, [])

/-- The key-deletion loop of `resetBlendShapes` (lines 886-891): for each
snapshot key, delete it from both maps unless protected. -/
def deleteNonProtected (keys : List String)
    (tc : List (String × ℚ) × List (String × ℚ)) :
    List (String × ℚ) × List (String × ℚ) :=
  keys.foldl (fun tc name =>
    if ! isProtectedName name then (mapDelete tc.1 name, mapDelete tc.2 name)
    else tc) tc

/-- The sink-zeroing loop of `resetBlendShapes` (lines 893-899): write 0 to
the influence slot of every meshed non-protected control. -/
def zeroInfluences (cs : List BSControl) (influences : List (String × ℚ)) :
    List (String × ℚ) :=
  cs.foldl (fun infl c =>
    if c.hasMesh && ! isProtectedName c.name then mapSet infl c.name 0 else infl)
    influences

/-- `LipSyncController.resetBlendShapes()` (lines 884-900): delete every
non-protected key of `targetBlendShapes` from both maps (iterating over a
snapshot of the target's keys), then write 0 to the sink slot of every
non-protected control that has a mesh.  Returns (target, current, influences). -/
def resetBlendShapes (cs : List BSControl)
    (target current influences : List (String × ℚ)) :
    List (String × ℚ) × List (String × ℚ) × List (String × ℚ) :=
  let tc := deleteNonProtected (target.map (fun p => p.1)) (target, current)
  (tc.1, tc.2, zeroInfluences cs influences)

/-! ### LipSyncController.js : timeline scheduling -/

/-- The `phonemeDurations` table (src/LipSyncController.js lines 49-72). -/
def phonemeDurations : List (String × ℚ) :=
  [("AAA", 13/10), ("EH", 12/10), ("AHH", 12/10), ("IEE", 12/10),
   ("OHH", 13/10), ("UUU", 12/10),
   ("SSS", 9/10), ("FFF", 8/10), ("TTH", 75/100), ("MBP", 8/10),
   ("RRR", 9/10), ("WWW", 9/10), ("SSH", 9/10),
   ("PAUSE_SHORT", 2), ("PAUSE_MED", 3), ("PAUSE_LONG", 45/10)]

/-- `this.phonemeDurations[currentPhoneme] || 1.0` (line 360). -/
def durationMultiplier (phoneme : String) : ℚ := (objGet phonemeDurations phoneme).getD 1

/-- A timer action scheduled by `startPreparedAnimation`: either
`applyPhoneme(phoneme)` or
`applyAnticipatedPhoneme(current, next, factor)`. -/
inductive SchedAction where
  | applyPh (phoneme : String)
  | anticipate (current next : String) (factor : ℚ)
deriving DecidableEq, Repr

/-- A pending `setTimeout` entry: fire time (ms from scheduling) and action. -/
structure SchedEvent where
  timeMs : ℚ
  action : SchedAction
deriving DecidableEq, Repr

/-- The timing/anticipation configuration fields of the controller that the
scheduling loop reads. -/
structure ControllerConfig where
  phonemeOffsetMs : ℚ
  phonemeSpeedMs : ℚ
  endDelayMs : ℚ
  anticipationEnabled : Bool
  anticipationFactor : ℚ
deriving DecidableEq, Repr

/-- The constructor defaults (src/LipSyncController.js lines 22-41):
`phonemeOffsetMs = 50`, `phonemeSpeedMs = 135`, `endDelayMs = 550`,
anticipation disabled with factor 0.35. -/
def defaultControllerConfig : ControllerConfig :=
  { phonemeOffsetMs := 50, phonemeSpeedMs := 135, endDelayMs := 550,
    anticipationEnabled := false, anticipationFactor := 35/100 }

/-- The scheduling loop of `startPreparedAnimation` (lines 343-373), started
at running offset `currentTime`: returns the `setTimeout` entries in creation
order together with the final `lastPhonemeTime`.  `anticipationOffset` is the
precomputed `phonemeSpeedMs * anticipation.offsetFactor`. -/
def scheduleLoop (cfg : ControllerConfig) (anticipationOffset : ℚ) :
    ℚ → List String → List SchedEvent × ℚ
  | currentTime, [] => ([], currentTime)
  | currentTime, phoneme :: rest =>
    let applyEv : SchedEvent := ⟨currentTime, SchedAction.applyPh phoneme⟩
    let anticipEvs : List SchedEvent :=
      match rest.head? with
      | some nextPhoneme =>
        if cfg.anticipationEnabled then
          [⟨currentTime + anticipationOffset,
            SchedAction.anticipate phoneme nextPhoneme cfg.anticipationFactor⟩]
        else []
      | none => []
    let phonemeDuration := cfg.phonemeSpeedMs * durationMultiplier phoneme
    let res := scheduleLoop cfg anticipationOffset (currentTime + phonemeDuration) rest
    (applyEv :: anticipEvs ++ res.1, res.2)

/-- The pure content of `startPreparedAnimation` (lines 325-385) for a
prepared phoneme list: the scheduled events and the final `lastPhonemeTime`
(0 when the list is empty, since the loop never updates it). -/
def scheduleEvents (cfg : ControllerConfig) (anticipationOffset : ℚ)
    (phonemes : List String) : List SchedEvent × ℚ :=
  match phonemes with
  | [] => ([], 0)
  | _ => scheduleLoop cfg anticipationOffset cfg.phonemeOffsetMs phonemes

/-- The estimated animation duration returned by `startPreparedAnimation`
(line 384): `lastPhonemeTime + endDelayMs`. -/
def totalDuration (cfg : ControllerConfig) (anticipationOffset : ℚ)
    (phonemes : List String) : ℚ :=
  (scheduleEvents cfg anticipationOffset phonemes).2 + cfg.endDelayMs

/-! ### LipSyncController.js : controller state, stop, speak, pause polling -/

/-- The mutable controller state touched by `speak`, `stopAnimation`,
`clearAudioSource` and the pause-monitoring poll.  `pendingTimeouts` is the
host's timer table for `setTimeout` entries created by this controller —
the source never stores the returned handles, so nothing in the class can
remove an entry.  `influences` is the channel sink
(`control.mesh.morphTargetInfluences[control.index]`) keyed by control
name. -/
structure LSCState where
  isAnimating : Bool
  currentAudio : Bool
  usingAudioBasedPauses : Bool
  pauseUpdateInterval : Bool
  detectedPauses : List PauseInterval
  lastAppliedPauseId : Option String
  currentlyInPause : Bool
  targetBlendShapes : List (String × ℚ)
  currentBlendShapes : List (String × ℚ)
  influences : List (String × ℚ)
  pendingTimeouts : List SchedEvent
  lastPhonemeTime : ℚ
  preparedPhonemes : Option (List String)
deriving DecidableEq, Repr

/-- `LipSyncController.clearAudioSource()` (lines 774-791): clear the poll
interval, drop audio references and detected pauses, and reset pause
tracking. -/
def clearAudioSourceS (s : LSCState) : LSCState :=
  { s with pauseUpdateInterval := false, currentAudio := false,
           detectedPauses := [], usingAudioBasedPauses := false,
           lastAppliedPauseId := none, currentlyInPause := false }

/-- `LipSyncController.stopAnimation()` (lines 875-882): stop animating, clear
audio monitoring, reset blend shapes.  Note that `pendingTimeouts` is
untouched: the source stores no `setTimeout` handles and never calls
`clearTimeout`. -/
def stopAnimationS (cs : List BSControl) (s : LSCState) : LSCState :=
  let s := { s with isAnimating := false }
  let s := clearAudioSourceS s
  let r := resetBlendShapes cs s.targetBlendShapes s.currentBlendShapes s.influences
  { s with targetBlendShapes := r.1, currentBlendShapes := r.2.1, influences := r.2.2 }

/-- `startPreparedAnimation` (lines 325-385) as a state transformer: stop any
running animation, mark animating, create the `setTimeout` entries, record
`lastPhonemeTime`, clear the prepared phonemes; returns the estimated
duration. -/
def startPreparedAnimationS (cs : List BSControl) (cfg : ControllerConfig)
    (anticipationOffset : ℚ) (s : LSCState) : LSCState × ℚ :=
  match s.preparedPhonemes with
  | none => (s, 0)
  | some phonemes =>
    let s := if s.isAnimating then stopAnimationS cs s else s
    let s := { s with isAnimating := true, lastPhonemeTime := 0 }
    let evs := scheduleEvents cfg anticipationOffset phonemes
    let s := { s with pendingTimeouts := s.pendingTimeouts ++ evs.1,
                      lastPhonemeTime := evs.2, preparedPhonemes := none }
    ({ s with isAnimating := true }, evs.2 + cfg.endDelayMs)

/-- `LipSyncController.speak(text, speed)` (lines 151-195) after the phoneme
list has been obtained (the network/fallback phoneme source is external): stop
any in-flight utterance, store the prepared phonemes, mark animating and start
the prepared animation.  Returns the new state and the estimated duration. -/
def speakStep (cs : List BSControl) (cfg : ControllerConfig)
    (anticipationOffset : ℚ) (s : LSCState) (phonemes : List String) :
    LSCState × ℚ :=
  let s := if s.isAnimating then stopAnimationS cs s else s
  let s := { s with preparedPhonemes := some phonemes }
  let s := { s with isAnimating := true, lastPhonemeTime := 0 }
  startPreparedAnimationS cs cfg anticipationOffset s

/-- `Number.prototype.toFixed(3)` for the nonnegative rational start times
appearing in pause ids: round to the nearest thousandth (ties away from zero
for nonnegative inputs is ties up) and render with exactly three decimals. -/
def toFixed3 (q : ℚ) : String :=
  let n : ℕ := (⌊q * 1000 + 1/2⌋).toNat
  let intPart := n / 1000
  let frac := n % 1000
  let fracStr :=
    if frac < 10 then "00" ++ toString frac
    else if frac < 100 then "0" ++ toString frac
    else toString frac
  toString intPart ++ "." ++ fracStr

/-- The pause identity used by the monitor (line 820):
`${currentPause.start.toFixed(3)}_${currentPause.type}`. -/
def pauseIdOf (pause : PauseInterval) : String :=
  toFixed3 pause.start ++ "_" ++ pause.type

/-- One tick of the `setInterval` callback installed by
`startAudioPauseMonitoring` (src/LipSyncController.js lines 807-849), at audio
clock position `currentTime`.  Returns the new state and `some appliedPauseId`
exactly when the tick called `applyPausePhoneme` (a pause-pose write to the
target map). -/
def pollStep (cs : List BSControl) (s : LSCState) (currentTime : ℚ) :
    LSCState × Option String :=
  if ! s.currentAudio || ! s.isAnimating || ! s.usingAudioBasedPauses then (s, none)
  else
    match getPauseAtTime s.detectedPauses currentTime with
    | some currentPause =>
      let pauseId := pauseIdOf currentPause
      if ! s.currentlyInPause || s.lastAppliedPauseId ≠ some pauseId then
        ({ s with targetBlendShapes :=
                    applyPausePhoneme cs s.targetBlendShapes currentPause.type,
                  lastAppliedPauseId := some pauseId, currentlyInPause := true },
         some pauseId)
      else (s, none)
    | none =>
      if s.currentlyInPause then ({ s with currentlyInPause := false }, none)
      else (s, none)

/-- A sequence of poll ticks at the given audio clock positions, collecting
the ids of the pause applications performed (the instrumented sink of the
spec's hysteresis test). -/
def runPolls (cs : List BSControl) (s : LSCState) (times : List ℚ) :
    LSCState × List String :=
  times.foldl (fun acc t =>
    let r := pollStep cs acc.1 t
    (r.1, acc.2 ++ r.2.toList)) (s, [])

/-- `startAudioPauseMonitoring` (lines 796-852): reset tracking state and
activate the poll interval. -/
def startAudioPauseMonitoringS (s : LSCState) : LSCState :=
  { s with lastAppliedPauseId := none, currentlyInPause := false,
           pauseUpdateInterval := true }

/-- An idle controller state: nothing animating, no audio attached, empty
maps, no pending timers. -/
def idleState : LSCState :=
  { isAnimating := false, currentAudio := false, usingAudioBasedPauses := false,
    pauseUpdateInterval := false, detectedPauses := [],
    lastAppliedPauseId := none, currentlyInPause := false,
    targetBlendShapes := [], currentBlendShapes := [], influences := [],
    pendingTimeouts := [], lastPhonemeTime := 0, preparedPhonemes := none }

/-- A controller state in the middle of audio-synchronized playback with one
detected pause interval spanning 1s-2s, as produced by `setAudioSource`
followed by `startAudioPauseMonitoring` while an animation runs. -/
def monitoringState : LSCState :=
  { idleState with
      isAnimating := true, currentAudio := true, usingAudioBasedPauses := true,
      pauseUpdateInterval := true,
      detectedPauses := [{ start := 1, endTime := 2, duration := 1000,
                           type := "PAUSE_LONG" }] }

/-- The anticipation offset `phonemeSpeedMs * anticipation.offsetFactor`
at the constructor defaults (135 * 0.6). -/
def defaultAnticipationOffset : ℚ := 135 * (6/10)

/-- Absence of protected channels from a weight map — the write-set invariant
of claim C7. -/
def CleanMap (m : List (String × ℚ)) : Prop :=
  ∀ p ∈ m, isProtectedName p.1 = false

/-- A small concrete control table: a mouth channel and a jaw channel, both
meshed, neither protected. -/
def C7cs : List BSControl :=
  [⟨"BlendShapes_Mouth.aaa_M", true⟩, ⟨"BlendShapes_Main.mouth_open_M", true⟩]

/-! ## Helper lemmas -/

/-- A property preserved by every fold step holds of the fold result. -/
theorem foldl_preserves {α β : Type} (P : α → Prop) (step : α → β → α)
    (hstep : ∀ a b, P a → P (step a b)) :
    ∀ (l : List β) (a : α), P a → P (List.foldl step a l)
  | [], _, ha => ha
  | b :: l, a, ha => foldl_preserves P step hstep l (step a b) (hstep a b ha)

/-- The left-to-right scan `includesList` decides contiguous-substring
occurrence. -/
theorem includesList_iff (t : List Char) :
    ∀ s : List Char, includesList t s = true ↔ t <:+: s := by
  intro s
  induction s with
  | nil =>
    constructor
    · intro h
      have ht : t = [] := by simpa [includesList] using h
      simp [ht]
    · intro h
      have ht : t = [] := by simpa using h
      simp [includesList, ht]
  | cons c s ih =>
    rw [includesList]
    constructor
    · intro h
      rcases Bool.or_eq_true_iff.mp h with h | h
      · exact (List.isPrefixOf_iff_prefix.mp h).isInfix
      · exact ((ih.mp h).trans (List.suffix_cons c s).isInfix)
    · intro h
      rcases h with ⟨l, r, hl⟩
      cases l with
      | nil =>
        apply Bool.or_eq_true_iff.mpr
        left
        exact List.isPrefixOf_iff_prefix.mpr ⟨r, by simpa using hl⟩
      | cons a l =>
        apply Bool.or_eq_true_iff.mpr
        right
        apply ih.mpr
        have h2 : a :: (l ++ t ++ r) = c :: s := by simpa using hl
        exact ⟨l, r, by simpa using (List.cons_eq_cons.mp h2).2⟩

/-- Setting a key makes `mapGet` see the new value. -/
theorem mapGet_mapSet_self (m : List (String × ℚ)) (k : String) (v : ℚ) :
    mapGet (mapSet m k v) k = some v := by
  induction m with
  | nil => simp [mapSet, mapGet]
  | cons p m ih =>
    by_cases h : p.1 = k
    · simp [mapSet, mapGet, h]
    · simp [mapSet, mapGet, h, ih]

/-- Setting a key leaves `mapGet` at other keys unchanged. -/
theorem mapGet_mapSet_ne (m : List (String × ℚ)) (k n : String) (v : ℚ)
    (h : n ≠ k) : mapGet (mapSet m k v) n = mapGet m n := by
  have hkn : k ≠ n := Ne.symm h
  induction m with
  | nil => simp [mapSet, mapGet, hkn]
  | cons p m ih =>
    by_cases hp : p.1 = k
    · simp [mapSet, mapGet, hp, hkn]
    · simp [mapSet, mapGet, hp, ih]

/-- Every entry of `mapSet m k v` comes from `m` or is the new entry. -/
theorem mem_mapSet (m : List (String × ℚ)) (k : String) (v : ℚ) (q : String × ℚ)
    (hq : q ∈ mapSet m k v) : q ∈ m ∨ q = (k, v) := by
  induction m with
  | nil => simpa [mapSet] using hq
  | cons p m ih =>
    by_cases hp : p.1 = k
    · rcases (by simpa [mapSet, hp] using hq : q = (k, v) ∨ q ∈ m) with h | h
      · exact Or.inr h
      · exact Or.inl (List.mem_cons_of_mem p h)
    · rcases (by simpa [mapSet, hp] using hq : q = p ∨ q ∈ mapSet m k v) with h | h
      · exact Or.inl (h ▸ List.mem_cons_self p m)
      · rcases ih h with h' | h'
        · exact Or.inl (List.mem_cons_of_mem p h')
        · exact Or.inr h'

/-- A clean map stays clean when a non-protected key is set. -/
theorem cleanMap_mapSet (m : List (String × ℚ)) (k : String) (v : ℚ)
    (hm : CleanMap m) (hk : isProtectedName k = false) : CleanMap (mapSet m k v) := by
  intro q hq
  rcases mem_mapSet m k v q hq with h | h
  · exact hm q h
  · rw [h]; exact hk

/-! ## Claim theorems -/

/-- C1: the claim states the pause pose is applied at most once per distinct
pause-interval id, in particular that re-entering the same interval after
exiting it does not re-apply.  The code violates this: with a single interval
(1s-2s, id `1.000_PAUSE_LONG`) and polls at 1.5s, 1.6s (same stay — correctly
not re-applied), 2.5s (exit), 1.5s again, the condition
`!currentlyInPause || lastAppliedPauseId !== pauseId` is true again on
re-entry because `currentlyInPause` was cleared on exit, so the same id is
applied twice. -/
theorem C1_pause_reapplied_on_reentry :
    (runPolls [] monitoringState [3/2, 8/5, 5/2, 3/2]).2
        = ["1.000_PAUSE_LONG", "1.000_PAUSE_LONG"]
    ∧ ¬ ((runPolls [] monitoringState [3/2, 8/5, 5/2, 3/2]).2.count
          "1.000_PAUSE_LONG" ≤ 1) := by
  constructor
  · with_unfolding_all decide
  · with_unfolding_all decide

/-- C2: the claim states that `speak` while animating cancels all pending
timers of the previous utterance before scheduling the new one.  The code
violates this: `stopAnimation` (invoked by the second `speak`) never stores or
clears `setTimeout` handles, so the first utterance's `Apply(AAA)` timer is
still pending, ahead of the new utterance's events, after the second `speak`
returns. -/
theorem C2_previous_timers_survive_speak :
    ((speakStep [] defaultControllerConfig defaultAnticipationOffset idleState
        ["AAA"]).1).isAnimating = true
    ∧ ((speakStep [] defaultControllerConfig defaultAnticipationOffset idleState
        ["AAA"]).1).pendingTimeouts = [⟨50, SchedAction.applyPh "AAA"⟩]
    ∧ ((speakStep [] defaultControllerConfig defaultAnticipationOffset
        ((speakStep [] defaultControllerConfig defaultAnticipationOffset idleState
          ["AAA"]).1) ["SSS"]).1).pendingTimeouts
        = [⟨50, SchedAction.applyPh "AAA"⟩, ⟨50, SchedAction.applyPh "SSS"⟩] := by
  refine ⟨rfl, ?_, ?_⟩ <;> with_unfolding_all decide

/-- C5: the scheduler on `[AAA, PAUSE_MED, SSS]` at the defaults
(speed 135 ms, offset 50 ms, multipliers 1.3 / 3.0 / 0.9, end delay 550 ms)
emits Apply(AAA) at 50 ms, Apply(PAUSE_MED) at 225.5 ms, Apply(SSS) at
630.5 ms, with final running offset 752 ms and total estimated duration
1302 ms. -/
theorem C5_schedule_scenario :
    scheduleEvents defaultControllerConfig defaultAnticipationOffset
        ["AAA", "PAUSE_MED", "SSS"]
      = ([⟨50, SchedAction.applyPh "AAA"⟩, ⟨451/2, SchedAction.applyPh "PAUSE_MED"⟩,
          ⟨1261/2, SchedAction.applyPh "SSS"⟩], 752)
    ∧ totalDuration defaultControllerConfig defaultAnticipationOffset
        ["AAA", "PAUSE_MED", "SSS"] = 1302 := by
  constructor
  · with_unfolding_all decide
  · with_unfolding_all decide

/-- C4, counterexample: the claim says the analyzer uses windows of exactly
`round(sampleRate * 0.01)` samples; the source uses
`Math.floor(sampleRate * 0.01)` and lets the final window be shorter.  At the
standard rate 22050 Hz the code's window is 220 samples while the claimed
round gives 221, and on a 441-sample buffer the code produces windows of
220, 220 and 1 samples — none of length 221 would partition it. -/
theorem C4_window_size_not_round :
    windowSize 22050 = 220 ∧ specWindowSize 22050 = 221
    ∧ ¬ (∀ w ∈ windows (windowSize 22050) (List.replicate 441 (0:ℚ)),
          w.length = specWindowSize 22050)
    ∧ (windows (windowSize 22050) (List.replicate 441 (0:ℚ))).map List.length
        = [220, 220, 1] := by
  refine ⟨rfl, rfl, by with_unfolding_all decide, by with_unfolding_all decide⟩

/-- C8: `getPauseAtTime` returns `none` iff no recorded interval contains the
query time inclusively, and when it returns an interval, that interval
contains the time at both inclusive boundaries and is the first such interval
in recorded order. -/
theorem C8_getPauseAtTime_first (pauses : List PauseInterval) (t : ℚ) :
    (getPauseAtTime pauses t = none ↔
      ∀ p ∈ pauses, ¬ (p.start ≤ t ∧ t ≤ p.endTime))
    ∧ ∀ p, getPauseAtTime pauses t = some p →
        (p.start ≤ t ∧ t ≤ p.endTime)
        ∧ ∃ pre post, pauses = pre ++ p :: post
            ∧ ∀ q ∈ pre, ¬ (q.start ≤ t ∧ t ≤ q.endTime) := by
  constructor
  · rw [getPauseAtTime, List.find?_eq_none]
    constructor
    · intro h p hp hc
      exact absurd (by simpa using hc : _) (by simpa using h p hp)
    · intro h p hp
      simpa using h p hp
  · intro p
    induction pauses with
    | nil => intro hp; simp [getPauseAtTime] at hp
    | cons q l ih =>
      intro hp
      by_cases hq : (q.start ≤ t ∧ t ≤ q.endTime)
      · have hfind : getPauseAtTime (q :: l) t = some q := by
          rw [getPauseAtTime, List.find?_cons_of_pos]
          simpa using hq
        rw [hfind] at hp
        obtain rfl : q = p := Option.some.inj hp
        exact ⟨hq, [], l, rfl, by simp⟩
      · have hstep : getPauseAtTime (q :: l) t = getPauseAtTime l t := by
          rw [getPauseAtTime, getPauseAtTime, List.find?_cons_of_neg]
          simpa using hq
        rw [hstep] at hp
        obtain ⟨hc, pre, post, hsplit, hpre⟩ := ih hp
        refine ⟨hc, q :: pre, post, by rw [hsplit, List.cons_append], ?_⟩
        intro r hr
        rcases List.mem_cons.mp hr with h | h
        · exact h ▸ hq
        · exact hpre r h

/-- C10: `isProtectedEmotionShape` returns false for a null/undefined or
empty name, and otherwise returns true exactly when the lowercased name
contains the lowercased form of some protected-list entry as a contiguous
substring. -/
theorem C10_protected_substring (s : String) (hs : s ≠ "") :
    isProtectedEmotionShape none = false
    ∧ isProtectedEmotionShape (some "") = false
    ∧ (isProtectedEmotionShape (some s) = true ↔
        ∃ p ∈ protectedEmotionShapes, (lowerStr p).data <:+: (lowerStr s).data) := by
  refine ⟨rfl, rfl, ?_⟩
  rw [isProtectedEmotionShape, if_neg hs, List.any_eq_true]
  constructor
  · rintro ⟨p, hp, h⟩
    exact ⟨p, hp, (includesList_iff _ _).mp h⟩
  · rintro ⟨p, hp, h⟩
    exact ⟨p, hp, (includesList_iff _ _).mpr h⟩

/-- The state machine of `detectPauses`, run from window index `k` with an
open candidate starting at window `o` (if any, with recorded start time `q`)
and accumulator `ps`, produces exactly the accumulated intervals followed by
the maximal silent runs of the remaining flags, filtered by the minimum
duration — the trailing close at `endT` included. -/
theorem detectLoop_runs (cfg : AnalyzerConfig) (time : ℕ → ℚ) (endT : ℚ) :
    ∀ (flags : List Bool) (k : ℕ) (o : Option ℕ) (q : ℚ) (ps : List PauseInterval),
    (∀ s, o = some s → q = time s) →
    finishDetect cfg endT (detectLoop cfg time k ⟨o.isSome, q, ps⟩ flags)
      = ps ++ ((silentRunsAux k o flags).map (runToInterval cfg time endT)).filter
          (fun p => decide (cfg.minPauseDuration ≤ p.duration)) := by
  intro flags
  induction flags with
  | nil =>
    intro k o q ps ho
    cases o with
    | none => simp [detectLoop, silentRunsAux, finishDetect]
    | some s =>
      have hq := ho s rfl
      subst hq
      by_cases h : cfg.minPauseDuration ≤ (endT - time s) * 1000
      · simp [detectLoop, silentRunsAux, finishDetect, recordPause, runToInterval, h]
      · simp [detectLoop, silentRunsAux, finishDetect, recordPause, runToInterval, h]
  | cons b bs ih =>
    intro k o q ps ho
    cases o with
    | none =>
      cases b with
      | true =>
        rw [detectLoop]
        have hstep : stepWindow cfg ⟨(none : Option ℕ).isSome, q, ps⟩ (time k) true
            = ⟨(some k).isSome, time k, ps⟩ := by
          simp [stepWindow]
        rw [hstep, ih (k + 1) (some k) (time k) ps (by intro s hs; cases hs; rfl)]
        simp [silentRunsAux]
      | false =>
        rw [detectLoop]
        have hstep : stepWindow cfg ⟨(none : Option ℕ).isSome, q, ps⟩ (time k) false
            = ⟨(none : Option ℕ).isSome, q, ps⟩ := by
          simp [stepWindow]
        rw [hstep, ih (k + 1) none q ps (by intro s hs; cases hs)]
        simp [silentRunsAux]
    | some s =>
      have hq := ho s rfl
      subst hq
      cases b with
      | true =>
        rw [detectLoop]
        have hstep : stepWindow cfg ⟨(some s).isSome, time s, ps⟩ (time k) true
            = ⟨(some s).isSome, time s, ps⟩ := by
          simp [stepWindow]
        rw [hstep, ih (k + 1) (some s) (time s) ps (by intro u hu; cases hu; rfl)]
        simp [silentRunsAux]
      | false =>
        rw [detectLoop]
        have hstep : stepWindow cfg ⟨(some s).isSome, time s, ps⟩ (time k) false
            = ⟨(none : Option ℕ).isSome, time s,
               recordPause cfg (time s) (time k) ps⟩ := by
          simp [stepWindow]
        rw [hstep, ih (k + 1) none (time s) (recordPause cfg (time s) (time k) ps)
          (by intro u hu; cases hu)]
        rw [silentRunsAux]
        by_cases h : cfg.minPauseDuration ≤ (time k - time s) * 1000
        · simp [recordPause, runToInterval, h]
        · simp [recordPause, runToInterval, h]

/-- C3: a silent run of the analysis windows appears in `detectPauses` output
exactly when its duration reaches `minPauseDuration`: the output is precisely
the duration-filtered image of the maximal silent runs (a trailing run being
closed at buffer end time), and every recorded interval's type is its
duration's class (`< shortPauseThreshold → PAUSE_SHORT`,
`< mediumPauseThreshold → PAUSE_MED`, else `PAUSE_LONG`). -/
theorem C3_detectPauses_runs (cfg : AnalyzerConfig) (sampleRate : ℕ)
    (samples : List ℚ) :
    detectPauses cfg sampleRate samples
      = ((silentRuns (silenceFlags cfg sampleRate samples)).map
          (runToInterval cfg (windowTime sampleRate)
            (bufferEndTime sampleRate samples))).filter
          (fun p => decide (cfg.minPauseDuration ≤ p.duration))
    ∧ (∀ r ∈ silentRuns (silenceFlags cfg sampleRate samples),
        (runToInterval cfg (windowTime sampleRate) (bufferEndTime sampleRate samples) r
            ∈ detectPauses cfg sampleRate samples
          ↔ cfg.minPauseDuration ≤
              (runToInterval cfg (windowTime sampleRate)
                (bufferEndTime sampleRate samples) r).duration))
    ∧ ∀ p ∈ detectPauses cfg sampleRate samples,
        p.type = classifyPause cfg p.duration := by
  have hmain : detectPauses cfg sampleRate samples
      = ((silentRuns (silenceFlags cfg sampleRate samples)).map
          (runToInterval cfg (windowTime sampleRate)
            (bufferEndTime sampleRate samples))).filter
          (fun p => decide (cfg.minPauseDuration ≤ p.duration)) := by
    rw [detectPauses, detectPausesFlags, silentRuns]
    simpa using detectLoop_runs cfg (windowTime sampleRate)
      (bufferEndTime sampleRate samples) (silenceFlags cfg sampleRate samples)
      0 none 0 [] (by intro s hs; cases hs)
  refine ⟨hmain, ?_, ?_⟩
  · intro r hr
    constructor
    · intro hmem
      rw [hmain] at hmem
      simpa using List.of_mem_filter hmem
    · intro hdur
      rw [hmain]
      exact List.mem_filter_of_mem (List.mem_map_of_mem _ hr) (by simpa using hdur)
  · intro p hp
    rw [hmain] at hp
    obtain ⟨r, _, rfl⟩ := List.mem_map.mp (List.mem_of_mem_filter hp)
    rfl

/-- The analysis windows concatenate back to the original buffer. -/
theorem windowsAux_join (ws : ℕ) (hws : 1 ≤ ws) :
    ∀ (fuel : ℕ) (xs : List ℚ), xs.length ≤ fuel →
      (windowsAux ws fuel xs).flatten = xs := by
  intro fuel
  induction fuel with
  | zero =>
    intro xs h
    have hx : xs = [] := List.length_eq_zero.mp (Nat.le_zero.mp h)
    subst hx
    simp [windowsAux]
  | succ fuel ih =>
    intro xs h
    cases xs with
    | nil => simp [windowsAux]
    | cons x l =>
      rw [windowsAux, List.flatten_cons, ih ((x :: l).drop ws)
        (by rw [List.length_drop, List.length_cons]
            rw [List.length_cons] at h
            omega)]
      exact List.take_append_drop ws (x :: l)

/-- Every analysis window is nonempty and at most `ws` samples long. -/
theorem windowsAux_mem_length (ws : ℕ) (hws : 1 ≤ ws) :
    ∀ (fuel : ℕ) (xs : List ℚ) (w : List ℚ), w ∈ windowsAux ws fuel xs →
      0 < w.length ∧ w.length ≤ ws := by
  intro fuel
  induction fuel with
  | zero => intro xs w hw; simp [windowsAux] at hw
  | succ fuel ih =>
    intro xs w hw
    cases xs with
    | nil => simp [windowsAux] at hw
    | cons x l =>
      rw [windowsAux] at hw
      rcases List.mem_cons.mp hw with hweq | hwmem
      · subst hweq
        rw [List.length_take, List.length_cons]
        omega
      · exact ih _ _ hwmem

/-- Every analysis window except possibly the last is exactly `ws` samples
long. -/
theorem windowsAux_dropLast_length (ws : ℕ) (hws : 1 ≤ ws) :
    ∀ (fuel : ℕ) (xs : List ℚ), xs.length ≤ fuel →
      ∀ w ∈ (windowsAux ws fuel xs).dropLast, w.length = ws := by
  intro fuel
  induction fuel with
  | zero =>
    intro xs h w hw
    have hx : xs = [] := List.length_eq_zero.mp (Nat.le_zero.mp h)
    subst hx
    simp [windowsAux] at hw
  | succ fuel ih =>
    intro xs h w hw
    cases xs with
    | nil => simp [windowsAux] at hw
    | cons x l =>
      rw [windowsAux] at hw
      cases hrest : windowsAux ws fuel ((x :: l).drop ws) with
      | nil => rw [hrest] at hw; simp at hw
      | cons w0 rest =>
        rw [hrest, List.dropLast_cons₂] at hw
        rcases List.mem_cons.mp hw with hweq | hwmem
        · subst hweq
          have hdrop : (x :: l).drop ws ≠ [] := by
            intro hnil
            rw [hnil] at hrest
            cases fuel <;> simp [windowsAux] at hrest
          have hlen : ws < (x :: l).length := by
            by_contra hc
            push_neg at hc
            exact hdrop (List.drop_eq_nil_of_le hc)
          rw [List.length_cons] at hlen
          rw [List.length_take, List.length_cons]
          omega
        · rw [← hrest] at hwmem
          exact ih ((x :: l).drop ws)
            (by rw [List.length_drop, List.length_cons]
                rw [List.length_cons] at h
                omega) w hwmem

/-- The squared silence comparison of the embedding is the literal RMS
comparison `sqrt(sumSquares / windowLen) < silenceThreshold` of the source. -/
theorem isSilentWindow_iff_rms (thr : ℚ) (hthr : 0 < thr) (w : List ℚ)
    (hw : w ≠ []) :
    isSilentWindow thr w = true ↔
      Real.sqrt ((((w.map (fun x => x * x)).sum / (w.length : ℚ) : ℚ) : ℝ)) < (thr : ℝ) := by
  have hlen : 0 < (w.length : ℚ) := by
    have h0 : 0 < w.length := List.length_pos.mpr hw
    exact_mod_cast h0
  rw [isSilentWindow, decide_eq_true_iff]
  rw [Real.sqrt_lt' (show (0:ℝ) < (thr : ℝ) by exact_mod_cast hthr)]
  rw [show ((thr : ℝ)) ^ 2 = (((thr ^ 2 : ℚ)) : ℝ) by push_cast; ring]
  rw [Rat.cast_lt (K := ℝ)]
  rw [div_lt_iff₀ hlen]

/-- C4, amended: the analyzer partitions the samples into non-overlapping
windows of exactly `floor(sampleRate * 0.01)` samples except that the final
window may be shorter (it is never empty), computes the RMS of each window,
and marks a window silent exactly when its RMS is strictly below
`silenceThreshold`. -/
theorem C4_amended (sampleRate : ℕ) (samples : List ℚ) (thr : ℚ)
    (hsr : 100 ≤ sampleRate) (hthr : 0 < thr) :
    (windows (windowSize sampleRate) samples).flatten = samples
    ∧ (∀ w ∈ (windows (windowSize sampleRate) samples).dropLast,
        w.length = windowSize sampleRate)
    ∧ (∀ w ∈ windows (windowSize sampleRate) samples,
        0 < w.length ∧ w.length ≤ windowSize sampleRate)
    ∧ (∀ w ∈ windows (windowSize sampleRate) samples,
        (isSilentWindow thr w = true ↔
          Real.sqrt ((((w.map (fun x => x * x)).sum / (w.length : ℚ) : ℚ) : ℝ))
            < (thr : ℝ))) := by
  have hws : 1 ≤ windowSize sampleRate := by
    rw [windowSize]
    omega
  refine ⟨windowsAux_join (windowSize sampleRate) hws samples.length samples le_rfl,
    windowsAux_dropLast_length (windowSize sampleRate) hws samples.length samples le_rfl,
    fun w hw => windowsAux_mem_length (windowSize sampleRate) hws samples.length samples w hw,
    fun w hw => ?_⟩
  have hpos := (windowsAux_mem_length (windowSize sampleRate) hws samples.length
    samples w hw).1
  exact isSilentWindow_iff_rms thr hthr w (List.length_pos.mp hpos)

/-- C4 amended, witness: the defaults at 44100 Hz on a two-sample buffer. -/
theorem C4_amended_witness :
    ((100 ≤ 44100 ∧ (0:ℚ) < 15/1000)
     ∧ ((windows (windowSize 44100) [1/2, 0]).flatten = [1/2, 0]
        ∧ (∀ w ∈ (windows (windowSize 44100) [1/2, 0]).dropLast,
            w.length = windowSize 44100)
        ∧ (∀ w ∈ windows (windowSize 44100) [1/2, 0],
            0 < w.length ∧ w.length ≤ windowSize 44100)
        ∧ (∀ w ∈ windows (windowSize 44100) [1/2, 0],
            (isSilentWindow (15/1000) w = true ↔
              Real.sqrt ((((w.map (fun x => x * x)).sum / (w.length : ℚ) : ℚ) : ℝ))
                < ((15/1000 : ℚ) : ℝ))))) :=
  ⟨⟨by norm_num, by norm_num⟩,
   C4_amended 44100 [1/2, 0] (15/1000) (by norm_num) (by norm_num)⟩

/-- The fade-toward-neutral fold of the anticipate-into-pause branch leaves
keys outside the folded control list untouched. -/
theorem fadeFold_get_of_not_mem (f : ℚ) :
    ∀ (cs : List BSControl) (m : List (String × ℚ)) (n : String),
    (∀ c ∈ cs, c.name ≠ n) →
    mapGet (fadeTargets cs m f) n = mapGet m n := by
  intro cs
  induction cs with
  | nil => intro m n _; rfl
  | cons c cs ih =>
    intro m n h
    rw [fadeTargets, List.foldl_cons, ← fadeTargets,
      ih _ n (fun c' hc' => h c' (List.mem_cons_of_mem c hc'))]
    by_cases hp : isProtectedName c.name
    · simp [hp]
    · have hne : n ≠ c.name := fun he => (h c (List.mem_cons_self c cs)) he.symm
      simp [hp, mapGet_mapSet_ne _ _ _ _ hne]

/-- The fade-toward-neutral fold multiplies exactly the non-protected existing
controls' target weights by `(1 - f)` (absent keys read as 0) and changes
nothing else. -/
theorem fadeFold_get (f : ℚ) :
    ∀ (cs : List BSControl) (m : List (String × ℚ)) (n : String),
    (cs.map (fun c => c.name)).Nodup →
    mapGet (fadeTargets cs m f) n
      = if (cs.any (fun c => c.name == n)) && ! isProtectedName n
        then some (((mapGet m n).getD 0) * (1 - f))
        else mapGet m n := by
  intro cs
  induction cs with
  | nil => intro m n _; simp [fadeTargets]
  | cons c cs ih =>
    intro m n hnd
    obtain ⟨hnotin, hnd'⟩ := List.nodup_cons.mp hnd
    have hnotin' : ∀ c' ∈ cs, c'.name ≠ c.name := by
      intro c' hc' he
      apply hnotin
      show c.name ∈ List.map (fun c => c.name) cs
      rw [← he]
      exact List.mem_map_of_mem (fun c => c.name) hc'
    rw [fadeTargets, List.foldl_cons, ← fadeTargets]
    by_cases hcn : c.name = n
    · subst hcn
      by_cases hp : isProtectedName c.name
      · rw [if_neg (by simp [hp]), if_neg (by simp [hp]),
          fadeFold_get_of_not_mem f cs m c.name hnotin']
      · rw [if_pos (by simp [hp]),
          fadeFold_get_of_not_mem f cs _ c.name hnotin',
          mapGet_mapSet_self, if_pos (by simp [hp])]
    · have hstep : mapGet (if ! isProtectedName c.name
          then mapSet m c.name (((mapGet m c.name).getD 0) * (1 - f)) else m) n
          = mapGet m n := by
        by_cases hp : isProtectedName c.name
        · simp [hp]
        · simp [hp, mapGet_mapSet_ne _ _ _ _ (Ne.symm hcn)]
      rw [ih _ n hnd', hstep]
      have hany : ((c :: cs).any (fun c => c.name == n))
          = (cs.any (fun c => c.name == n)) := by
        simp [List.any_cons, hcn]
      rw [hany]

/-- C6: an `Anticipate(current, next, factor)` step into a pause scales every
existing non-protected channel's target weight by `(1 - factor)` (an absent
target reads as 0) and writes nothing else — protected channels and channels
with no control are untouched; an `Anticipate` step out of a pause (next not a
pause, current a pause) leaves the target map literally unchanged. -/
theorem C6_anticipate_pause (cs : List BSControl) (target : List (String × ℚ))
    (currentPhoneme next : String) (blendFactor : ℚ) (n : String)
    (hnd : (cs.map (fun c => c.name)).Nodup) :
    (isPausePhonemeB next = true →
      mapGet (applyAnticipatedPhoneme cs target currentPhoneme (some next) blendFactor) n
        = if (cs.any (fun c => c.name == n)) && ! isProtectedName n
          then some (((mapGet target n).getD 0) * (1 - blendFactor))
          else mapGet target n)
    ∧ (isPausePhonemeB next = false → isPausePhonemeB currentPhoneme = true →
        applyAnticipatedPhoneme cs target currentPhoneme (some next) blendFactor
          = target) := by
  constructor
  · intro hpause
    rw [show applyAnticipatedPhoneme cs target currentPhoneme (some next) blendFactor
        = fadeTargets cs target blendFactor from by
      rw [applyAnticipatedPhoneme]; simp [hpause]]
    exact fadeFold_get blendFactor cs target n hnd
  · intro hnp hcp
    rw [applyAnticipatedPhoneme]
    simp [hnp, hcp]

/-- C6 witness: one non-protected control with an existing target weight,
anticipating into `PAUSE_MED` and out of it. -/
theorem C6_witness :
    (([⟨"BlendShapes_Mouth.aaa_M", true⟩] : List BSControl).map
        (fun c => c.name)).Nodup
    ∧ ((isPausePhonemeB "PAUSE_MED" = true →
        mapGet (applyAnticipatedPhoneme [⟨"BlendShapes_Mouth.aaa_M", true⟩]
            [("BlendShapes_Mouth.aaa_M", 7/10)] "AAA" (some "PAUSE_MED") (35/100))
            "BlendShapes_Mouth.aaa_M"
          = if (([⟨"BlendShapes_Mouth.aaa_M", true⟩] : List BSControl).any
                (fun c => c.name == "BlendShapes_Mouth.aaa_M"))
              && ! isProtectedName "BlendShapes_Mouth.aaa_M"
            then some (((mapGet [("BlendShapes_Mouth.aaa_M", 7/10)]
                "BlendShapes_Mouth.aaa_M").getD 0) * (1 - 35/100))
            else mapGet [("BlendShapes_Mouth.aaa_M", 7/10)] "BlendShapes_Mouth.aaa_M")
       ∧ (isPausePhonemeB "PAUSE_MED" = false → isPausePhonemeB "AAA" = true →
          applyAnticipatedPhoneme [⟨"BlendShapes_Mouth.aaa_M", true⟩]
              [("BlendShapes_Mouth.aaa_M", 7/10)] "AAA" (some "PAUSE_MED") (35/100)
            = [("BlendShapes_Mouth.aaa_M", 7/10)])) :=
  ⟨by decide,
   C6_anticipate_pause [⟨"BlendShapes_Mouth.aaa_M", true⟩]
     [("BlendShapes_Mouth.aaa_M", 7/10)] "AAA" "PAUSE_MED" (35/100)
     "BlendShapes_Mouth.aaa_M" (by decide)⟩

/-- A property preserved by the fold step for list members holds of the fold
result. -/
theorem foldl_preserves_mem {α β : Type} (P : α → Prop) (step : α → β → α) :
    ∀ (l : List β), (∀ a b, b ∈ l → P a → P (step a b)) →
    ∀ (a : α), P a → P (List.foldl step a l)
  | [], _, _, ha => ha
  | b :: l, hstep, a, ha =>
    foldl_preserves_mem P step l
      (fun a' b' hb' => hstep a' b' (List.mem_cons_of_mem b hb'))
      (step a b) (hstep a b (List.mem_cons_self b l) ha)

/-- Every control returned by the jaw-control filter is non-protected. -/
theorem jawControls_not_protected (cs : List BSControl) (names : List String)
    (c : BSControl) (hc : c ∈ jawControls cs names) :
    isProtectedName c.name = false := by
  rw [jawControls] at hc
  simpa using (List.mem_filter.mp hc).2

/-- Deleting a key keeps a map clean. -/
theorem cleanMap_mapDelete (m : List (String × ℚ)) (k : String)
    (h : CleanMap m) : CleanMap (mapDelete m k) := by
  intro p hp
  exact h p (List.mem_of_mem_filter hp)

/-- The reset loop writes only non-protected keys. -/
theorem cleanMap_resetTargetsToZero (cs : List BSControl)
    (target : List (String × ℚ)) (h : CleanMap target) :
    CleanMap (resetTargetsToZero cs target) := by
  rw [resetTargetsToZero]
  refine foldl_preserves CleanMap _ ?_ cs target h
  intro m c hm
  by_cases hp : isProtectedName c.name = true
  · simpa [hp] using hm
  · have hp' : isProtectedName c.name = false := by simpa using hp
    simpa [hp'] using cleanMap_mapSet m c.name 0 hm hp'

/-- The mapped-weight loop writes only non-protected keys. -/
theorem cleanMap_applyMappedWeights (cs : List BSControl)
    (target mapped : List (String × ℚ)) (h : CleanMap target) :
    CleanMap (applyMappedWeights cs target mapped) := by
  rw [applyMappedWeights]
  refine foldl_preserves CleanMap _ ?_ mapped target h
  intro m nw hm
  by_cases hg : ((controlLookup cs nw.1).isSome && ! isProtectedName nw.1) = true
  · have hp : isProtectedName nw.1 = false := by
      simpa using (Bool.and_eq_true_iff.mp hg).2
    simpa [hg] using cleanMap_mapSet m nw.1 nw.2 hm hp
  · simpa [hg] using hm

/-- The jaw loop writes only non-protected keys. -/
theorem cleanMap_setJaw (cs : List BSControl) (target : List (String × ℚ))
    (names : List String) (v : ℚ) (h : CleanMap target) :
    CleanMap (setJaw cs target names v) := by
  rw [setJaw]
  refine foldl_preserves_mem CleanMap _ (jawControls cs names) ?_ target h
  intro m c hc hm
  exact cleanMap_mapSet m c.name v hm (jawControls_not_protected cs names c hc)

/-- The fade-toward-neutral loop writes only non-protected keys. -/
theorem cleanMap_fadeTargets (cs : List BSControl) (target : List (String × ℚ))
    (f : ℚ) (h : CleanMap target) : CleanMap (fadeTargets cs target f) := by
  rw [fadeTargets]
  refine foldl_preserves CleanMap _ ?_ cs target h
  intro m c hm
  by_cases hp : isProtectedName c.name = true
  · simpa [hp] using hm
  · have hp' : isProtectedName c.name = false := by simpa using hp
    simpa [hp'] using cleanMap_mapSet m c.name _ hm hp'

/-- The blended anticipation map holds only non-protected keys. -/
theorem cleanMap_anticipateBlended (cs : List BSControl)
    (currentMapped nextMapped : List (String × ℚ)) (f : ℚ) :
    CleanMap (anticipateBlended cs currentMapped nextMapped f) := by
  simp only [anticipateBlended]
  refine foldl_preserves CleanMap _ ?_ nextMapped _
    (foldl_preserves CleanMap _ ?_ currentMapped []
      (by intro p hp; simp at hp))
  · intro m nw hm
    by_cases hg : ((controlLookup cs nw.1).isSome && ! isProtectedName nw.1) = true
    · have hp : isProtectedName nw.1 = false := by
        simpa using (Bool.and_eq_true_iff.mp hg).2
      simpa [hg] using cleanMap_mapSet m nw.1 _ hm hp
    · simpa [hg] using hm
  · intro m nw hm
    by_cases hg : ((controlLookup cs nw.1).isSome && ! isProtectedName nw.1) = true
    · have hp : isProtectedName nw.1 = false := by
        simpa using (Bool.and_eq_true_iff.mp hg).2
      simpa [hg] using cleanMap_mapSet m nw.1 _ hm hp
    · simpa [hg] using hm

/-- Writing back a clean blended map keeps the target clean. -/
theorem cleanMap_writeAllWeights (target blended : List (String × ℚ))
    (h : CleanMap target) (hb : CleanMap blended) :
    CleanMap (writeAllWeights target blended) := by
  rw [writeAllWeights]
  refine foldl_preserves_mem CleanMap _ blended ?_ target h
  intro m nw hnw hm
  exact cleanMap_mapSet m nw.1 nw.2 hm (hb nw hnw)

/-- `applyPhoneme` preserves the clean-target invariant. -/
theorem cleanMap_applyPhoneme (cs : List BSControl) (target : List (String × ℚ))
    (phoneme : String) (h : CleanMap target) :
    CleanMap (applyPhoneme cs target phoneme) := by
  rw [applyPhoneme]
  by_cases hp : isPausePhonemeB phoneme = true
  · simp only [hp, if_true]
    exact cleanMap_setJaw _ _ _ _ (cleanMap_resetTargetsToZero _ _ h)
  · simp only [hp, if_false, Bool.false_eq_true]
    by_cases hv : vowelPhonemes.contains phoneme = true
    · simp only [hv, if_true]
      exact cleanMap_setJaw _ _ _ _ (cleanMap_applyMappedWeights _ _ _
        (cleanMap_resetTargetsToZero _ _ h))
    · simp only [hv, if_false, Bool.false_eq_true]
      exact cleanMap_applyMappedWeights _ _ _ (cleanMap_resetTargetsToZero _ _ h)

/-- `applyAnticipatedPhoneme` preserves the clean-target invariant. -/
theorem cleanMap_applyAnticipatedPhoneme (cs : List BSControl)
    (target : List (String × ℚ)) (currentPhoneme : String)
    (nextPhoneme : Option String) (blendFactor : ℚ) (h : CleanMap target) :
    CleanMap (applyAnticipatedPhoneme cs target currentPhoneme nextPhoneme blendFactor) := by
  cases nextPhoneme with
  | none => simpa [applyAnticipatedPhoneme] using h
  | some next =>
    rw [applyAnticipatedPhoneme]
    by_cases hnp : isPausePhonemeB next = true
    · simp only [hnp, if_true]
      exact cleanMap_fadeTargets _ _ _ h
    · simp only [hnp, if_false, Bool.false_eq_true]
      by_cases hcp : isPausePhonemeB currentPhoneme = true
      · simpa [hcp] using h
      · simp only [hcp, if_false, Bool.false_eq_true]
        by_cases hv : (vowelPhonemes.contains currentPhoneme
            || vowelPhonemes.contains next) = true
        · simp only [hv, if_true]
          exact cleanMap_setJaw _ _ _ _
            (cleanMap_writeAllWeights _ _ h (cleanMap_anticipateBlended _ _ _ _))
        · simp only [hv, if_false, Bool.false_eq_true]
          exact cleanMap_writeAllWeights _ _ h (cleanMap_anticipateBlended _ _ _ _)

/-- `applyPausePhoneme` preserves the clean-target invariant. -/
theorem cleanMap_applyPausePhoneme (cs : List BSControl)
    (target : List (String × ℚ)) (pauseType : String) (h : CleanMap target) :
    CleanMap (applyPausePhoneme cs target pauseType) := by
  rw [applyPausePhoneme]
  by_cases hp : (! isPausePhonemeB pauseType) = true
  · simpa [hp] using h
  · simpa [hp] using cleanMap_resetTargetsToZero cs target h

/-- The interpolation tick keeps the current map clean and pushes no
protected channel to the sink. -/
theorem interpolate_clean (cs : List BSControl) (td delta : ℚ)
    (current target : List (String × ℚ)) (hc : CleanMap current) :
    CleanMap (interpolateBlendShapes cs td delta current target).1
    ∧ CleanMap (interpolateBlendShapes cs td delta current target).2 := by
  rw [interpolateBlendShapes]
  refine foldl_preserves (fun acc => CleanMap acc.1 ∧ CleanMap acc.2) _ ?_ target
    (current, []) ⟨hc, by intro p hp; simp at hp⟩
  rintro acc nw ⟨h1, h2⟩
  cases hcl : controlLookup cs nw.1 with
  | none => simpa [hcl] using ⟨h1, h2⟩
  | some control =>
    by_cases hg : (control.hasMesh && ! isProtectedName nw.1) = true
    · have hp : isProtectedName nw.1 = false := by
        simpa using (Bool.and_eq_true_iff.mp hg).2
      simp only [hcl, hg, if_true]
      refine ⟨cleanMap_mapSet _ _ _ h1 hp, ?_⟩
      intro q hq
      rcases List.mem_append.mp hq with hq | hq
      · exact h2 q hq
      · rw [List.mem_singleton.mp hq]
        exact hp
    · simpa [hcl, hg] using ⟨h1, h2⟩

/-- `resetBlendShapes` keeps both maps clean and writes no protected sink
slot. -/
theorem resetBlendShapes_clean (cs : List BSControl)
    (target current influences : List (String × ℚ))
    (ht : CleanMap target) (hc : CleanMap current) :
    CleanMap (resetBlendShapes cs target current influences).1
    ∧ CleanMap (resetBlendShapes cs target current influences).2.1
    ∧ ∀ nm, isProtectedName nm = true →
        mapGet (resetBlendShapes cs target current influences).2.2 nm
          = mapGet influences nm := by
  simp only [resetBlendShapes]
  have hpair : CleanMap (deleteNonProtected (target.map (fun p => p.1))
        (target, current)).1
      ∧ CleanMap (deleteNonProtected (target.map (fun p => p.1))
        (target, current)).2 := by
    rw [deleteNonProtected]
    refine foldl_preserves (fun tc => CleanMap tc.1 ∧ CleanMap tc.2) _ ?_
      (target.map (fun p => p.1)) (target, current) ⟨ht, hc⟩
    rintro tc name ⟨h1, h2⟩
    by_cases hp : (! isProtectedName name) = true
    · simpa [hp] using ⟨cleanMap_mapDelete _ _ h1, cleanMap_mapDelete _ _ h2⟩
    · simpa [hp] using ⟨h1, h2⟩
  refine ⟨hpair.1, hpair.2, ?_⟩
  intro nm hnm
  rw [zeroInfluences]
  refine foldl_preserves (fun infl => mapGet infl nm = mapGet influences nm) _ ?_
    cs influences rfl
  intro infl c hinfl
  by_cases hg : (c.hasMesh && ! isProtectedName c.name) = true
  · have hp : isProtectedName c.name = false := by
      simpa using (Bool.and_eq_true_iff.mp hg).2
    have hne : nm ≠ c.name := by
      intro he
      rw [he, hp] at hnm
      exact Bool.false_ne_true hnm
    simpa [hg] using (mapGet_mapSet_ne infl c.name nm 0 hne).trans hinfl
  · simpa [hg] using hinfl

/-- C7: no operation of the subsystem ever writes a protected channel: each
of `applyPhoneme`, `applyAnticipatedPhoneme`, `applyPausePhoneme`, the
interpolation tick and `resetBlendShapes` preserves the invariant that
protected channels are absent from the target and current weight maps, the
interpolation tick pushes no protected channel to the sink, and
`resetBlendShapes` leaves every protected sink slot untouched. -/
theorem C7_protected_never_written (cs : List BSControl)
    (target current influences : List (String × ℚ))
    (phoneme currentPhoneme pauseType : String) (nextPhoneme : Option String)
    (blendFactor transitionDuration delta : ℚ)
    (ht : CleanMap target) (hc : CleanMap current) :
    CleanMap (applyPhoneme cs target phoneme)
    ∧ CleanMap (applyAnticipatedPhoneme cs target currentPhoneme nextPhoneme blendFactor)
    ∧ CleanMap (applyPausePhoneme cs target pauseType)
    ∧ CleanMap (interpolateBlendShapes cs transitionDuration delta current target).1
    ∧ CleanMap (interpolateBlendShapes cs transitionDuration delta current target).2
    ∧ CleanMap (resetBlendShapes cs target current influences).1
    ∧ CleanMap (resetBlendShapes cs target current influences).2.1
    ∧ ∀ nm, isProtectedName nm = true →
        mapGet (resetBlendShapes cs target current influences).2.2 nm
          = mapGet influences nm := by
  obtain ⟨hi1, hi2⟩ := interpolate_clean cs transitionDuration delta current target hc
  obtain ⟨hr1, hr2, hr3⟩ := resetBlendShapes_clean cs target current influences ht hc
  exact ⟨cleanMap_applyPhoneme cs target phoneme ht,
    cleanMap_applyAnticipatedPhoneme cs target currentPhoneme nextPhoneme blendFactor ht,
    cleanMap_applyPausePhoneme cs target pauseType ht,
    hi1, hi2, hr1, hr2, hr3⟩

/-- C7 witness: a two-control model (one meshed, one not) with seeded clean
maps, exercising a vowel apply, an anticipation, a pause apply, a tick and a
reset. -/
theorem C7_witness :
    (CleanMap [("BlendShapes_Mouth.aaa_M", 7/10)]
     ∧ CleanMap [("BlendShapes_Main.mouth_open_M", 1/2)])
    ∧ (CleanMap (applyPhoneme C7cs [("BlendShapes_Mouth.aaa_M", 7/10)] "AAA")
       ∧ CleanMap (applyAnticipatedPhoneme C7cs
           [("BlendShapes_Mouth.aaa_M", 7/10)] "AAA" (some "SSS") (35/100))
       ∧ CleanMap (applyPausePhoneme C7cs
           [("BlendShapes_Mouth.aaa_M", 7/10)] "PAUSE_MED")
       ∧ CleanMap (interpolateBlendShapes C7cs 105 (1/60)
           [("BlendShapes_Main.mouth_open_M", 1/2)]
           [("BlendShapes_Mouth.aaa_M", 7/10)]).1
       ∧ CleanMap (interpolateBlendShapes C7cs 105 (1/60)
           [("BlendShapes_Main.mouth_open_M", 1/2)]
           [("BlendShapes_Mouth.aaa_M", 7/10)]).2
       ∧ CleanMap (resetBlendShapes C7cs [("BlendShapes_Mouth.aaa_M", 7/10)]
           [("BlendShapes_Main.mouth_open_M", 1/2)] [("x", 1)]).1
       ∧ CleanMap (resetBlendShapes C7cs [("BlendShapes_Mouth.aaa_M", 7/10)]
           [("BlendShapes_Main.mouth_open_M", 1/2)] [("x", 1)]).2.1
       ∧ ∀ nm, isProtectedName nm = true →
           mapGet (resetBlendShapes C7cs [("BlendShapes_Mouth.aaa_M", 7/10)]
             [("BlendShapes_Main.mouth_open_M", 1/2)] [("x", 1)]).2.2 nm
             = mapGet [("x", 1)] nm) :=
  ⟨⟨by intro p hp; simp at hp; rw [hp]; decide,
    by intro p hp; simp at hp; rw [hp]; decide⟩,
   C7_protected_never_written C7cs [("BlendShapes_Mouth.aaa_M", 7/10)]
     [("BlendShapes_Main.mouth_open_M", 1/2)] [("x", 1)] "AAA" "AAA" "PAUSE_MED"
     (some "SSS") (35/100) 105 (1/60)
     (by intro p hp; simp at hp; rw [hp]; decide)
     (by intro p hp; simp at hp; rw [hp]; decide)⟩

/-- Setting a key to the value its first entry already holds changes
nothing. -/
theorem mapSet_zero_of_get (m : List (String × ℚ)) (k : String)
    (h : mapGet m k = some 0) : mapSet m k 0 = m := by
  induction m with
  | nil => simp [mapGet] at h
  | cons p m ih =>
    by_cases hp : p.1 = k
    · have hval : p.2 = 0 := by simpa [mapGet, hp] using h
      have hpair : (k, (0:ℚ)) = p := by
        rw [Prod.ext_iff]
        exact ⟨hp.symm, hval.symm⟩
      simp [mapSet, hp, hpair]
    · rw [mapGet, if_neg (by simpa using hp)] at h
      simp [mapSet, hp, ih h]

/-- A zero influence slot stays zero through the sink-zeroing loop. -/
theorem zeroInfluences_get_preserved (cs : List BSControl)
    (influences : List (String × ℚ)) (k : String)
    (h : mapGet influences k = some 0) :
    mapGet (zeroInfluences cs influences) k = some 0 := by
  rw [zeroInfluences]
  refine foldl_preserves (fun m => mapGet m k = some 0) _ ?_ cs influences h
  intro m c hm
  by_cases hg : (c.hasMesh && ! isProtectedName c.name) = true
  · by_cases hk : c.name = k
    · rw [if_pos hg, hk]
      exact mapGet_mapSet_self m k 0
    · rw [if_pos hg, mapGet_mapSet_ne m c.name k 0 (Ne.symm hk)]
      exact hm
  · rw [if_neg hg]
    exact hm

/-- After the sink-zeroing loop, every meshed non-protected control's slot
reads zero. -/
theorem zeroInfluences_get (cs : List BSControl) (c : BSControl) (hc : c ∈ cs)
    (hg : (c.hasMesh && ! isProtectedName c.name) = true) :
    ∀ influences, mapGet (zeroInfluences cs influences) c.name = some 0 := by
  induction cs with
  | nil => cases hc
  | cons c0 cs ih =>
    intro influences
    rw [zeroInfluences, List.foldl_cons, ← zeroInfluences]
    rcases List.mem_cons.mp hc with rfl | hmem
    · rw [if_pos hg]
      exact zeroInfluences_get_preserved cs _ c.name (mapGet_mapSet_self _ _ _)
    · exact ih hmem _

/-- Zeroing the sink slots a second time changes nothing. -/
theorem zeroInfluences_id (cs : List BSControl) (influences : List (String × ℚ))
    (h : ∀ c ∈ cs, (c.hasMesh && ! isProtectedName c.name) = true →
      mapGet influences c.name = some 0) :
    zeroInfluences cs influences = influences := by
  induction cs with
  | nil => rfl
  | cons c0 cs ih =>
    rw [zeroInfluences, List.foldl_cons, ← zeroInfluences]
    by_cases hg : (c0.hasMesh && ! isProtectedName c0.name) = true
    · rw [if_pos hg, mapSet_zero_of_get _ _ (h c0 (List.mem_cons_self c0 cs) hg)]
      exact ih (fun c hc hgc => h c (List.mem_cons_of_mem c0 hc) hgc)
    · rw [if_neg hg]
      exact ih (fun c hc hgc => h c (List.mem_cons_of_mem c0 hc) hgc)

/-- Every entry surviving the key-deletion loop comes from the original map,
and any surviving entry whose key was in the deleted key list is protected. -/
theorem deleteNonProtected_mem (keys : List String) :
    ∀ (tc : List (String × ℚ) × List (String × ℚ)) (p : String × ℚ),
    (p ∈ (deleteNonProtected keys tc).1 →
      p ∈ tc.1 ∧ (p.1 ∈ keys → isProtectedName p.1 = true))
    ∧ (p ∈ (deleteNonProtected keys tc).2 →
      p ∈ tc.2 ∧ (p.1 ∈ keys → isProtectedName p.1 = true)) := by
  induction keys with
  | nil =>
    intro tc p
    constructor <;> intro h <;>
      exact ⟨h, fun hk => absurd hk (List.not_mem_nil p.1)⟩
  | cons k ks ih =>
    intro tc p
    rw [deleteNonProtected, List.foldl_cons, ← deleteNonProtected]
    by_cases hk : (! isProtectedName k) = true
    · rw [if_pos hk]
      constructor
      · intro h
        obtain ⟨hmem, himp⟩ := (ih _ p).1 h
        have h1 : p ∈ tc.1 := List.mem_of_mem_filter hmem
        have h2 : ¬ p.1 = k := by simpa using (List.mem_filter.mp hmem).2
        refine ⟨h1, fun hkk => ?_⟩
        rcases List.mem_cons.mp hkk with he | hks
        · exact absurd he h2
        · exact himp hks
      · intro h
        obtain ⟨hmem, himp⟩ := (ih _ p).2 h
        have h1 : p ∈ tc.2 := List.mem_of_mem_filter hmem
        have h2 : ¬ p.1 = k := by simpa using (List.mem_filter.mp hmem).2
        refine ⟨h1, fun hkk => ?_⟩
        rcases List.mem_cons.mp hkk with he | hks
        · exact absurd he h2
        · exact himp hks
    · rw [if_neg hk]
      have hkprot : isProtectedName k = true := by simpa using hk
      constructor
      · intro h
        obtain ⟨hmem, himp⟩ := (ih tc p).1 h
        refine ⟨hmem, fun hkk => ?_⟩
        rcases List.mem_cons.mp hkk with he | hks
        · rw [he]; exact hkprot
        · exact himp hks
      · intro h
        obtain ⟨hmem, himp⟩ := (ih tc p).2 h
        refine ⟨hmem, fun hkk => ?_⟩
        rcases List.mem_cons.mp hkk with he | hks
        · rw [he]; exact hkprot
        · exact himp hks

/-- Deleting a list of protected keys changes nothing (only non-protected
keys are deleted). -/
theorem deleteNonProtected_id (keys : List String)
    (tc : List (String × ℚ) × List (String × ℚ))
    (h : ∀ k ∈ keys, isProtectedName k = true) :
    deleteNonProtected keys tc = tc := by
  induction keys with
  | nil => rfl
  | cons k ks ih =>
    rw [deleteNonProtected, List.foldl_cons, ← deleteNonProtected]
    rw [if_neg (by simp [h k (List.mem_cons_self k ks)])]
    exact ih (fun k' hk' => h k' (List.mem_cons_of_mem k hk'))

/-- Every key surviving the deletion of the target's own key snapshot is
protected. -/
theorem deleteNonProtected_keys_protected (target current : List (String × ℚ)) :
    ∀ k ∈ ((deleteNonProtected (target.map (fun p => p.1))
        (target, current)).1.map (fun p => p.1)), isProtectedName k = true := by
  intro k hk
  obtain ⟨p, hp, hpk⟩ := List.mem_map.mp hk
  obtain ⟨hmem, himp⟩ := (deleteNonProtected_mem (target.map (fun q => q.1))
    (target, current) p).1 hp
  rw [← hpk]
  exact himp (List.mem_map_of_mem (fun q => q.1) hmem)

/-- C9: `stopAnimation` is idempotent — a second call reproduces the exact
same state — and after one call the animation is stopped, pause tracking and
the poll interval are reset, and every meshed non-protected channel's sink
weight is 0.  The model is total, so no error can be raised from any starting
state, including an idle one. -/
theorem C9_stopAnimation_idempotent (cs : List BSControl) (s : LSCState) :
    stopAnimationS cs (stopAnimationS cs s) = stopAnimationS cs s
    ∧ (stopAnimationS cs s).isAnimating = false
    ∧ (stopAnimationS cs s).lastAppliedPauseId = none
    ∧ (stopAnimationS cs s).currentlyInPause = false
    ∧ (stopAnimationS cs s).pauseUpdateInterval = false
    ∧ (stopAnimationS cs s).detectedPauses = []
    ∧ ∀ c ∈ cs, (c.hasMesh && ! isProtectedName c.name) = true →
        mapGet (stopAnimationS cs s).influences c.name = some 0 := by
  refine ⟨?_, rfl, rfl, rfl, rfl, rfl, ?_⟩
  · have hkeys := deleteNonProtected_keys_protected s.targetBlendShapes
      s.currentBlendShapes
    simp only [stopAnimationS, clearAudioSourceS, resetBlendShapes]
    have hdel := deleteNonProtected_id
      ((deleteNonProtected (s.targetBlendShapes.map (fun p => p.1))
        (s.targetBlendShapes, s.currentBlendShapes)).1.map (fun p => p.1))
      ((deleteNonProtected (s.targetBlendShapes.map (fun p => p.1))
        (s.targetBlendShapes, s.currentBlendShapes)).1,
       (deleteNonProtected (s.targetBlendShapes.map (fun p => p.1))
        (s.targetBlendShapes, s.currentBlendShapes)).2)
      hkeys
    have hinfl := zeroInfluences_id cs
      (zeroInfluences cs s.influences)
      (fun c hc hg => zeroInfluences_get cs c hc hg s.influences)
    simp [hdel, hinfl]
  · intro c hc hg
    simp only [stopAnimationS, clearAudioSourceS, resetBlendShapes]
    exact zeroInfluences_get cs c hc hg s.influences

/-- C10 witness: a name that strictly contains a protected entry (not an
exact match) at a different letter case. -/
theorem C10_witness :
    "xxBLENDSHAPE_MAIN.HAPPYzz" ≠ ""
    ∧ (isProtectedEmotionShape none = false
       ∧ isProtectedEmotionShape (some "") = false
       ∧ (isProtectedEmotionShape (some "xxBLENDSHAPE_MAIN.HAPPYzz") = true ↔
           ∃ p ∈ protectedEmotionShapes,
             (lowerStr p).data <:+: (lowerStr "xxBLENDSHAPE_MAIN.HAPPYzz").data)) :=
  ⟨by decide, C10_protected_substring "xxBLENDSHAPE_MAIN.HAPPYzz" (by decide)⟩

end LipSync
